import Mathlib

/-!
Shallow embedding of `loom`'s logging core (`src/loom/logger.py`) and proofs
about its registry, handler attachment, level filtering, formatting,
normalization and rotation behaviour.

The embedding follows the Python source: `LoomLogger.__init__`,
`_setup_handlers`, `_add_console_handler`, `_add_file_handler`,
`get_logger`, `clear_instances`, and `OneLineFormatter.format`.
Behaviour of third-party code that the source merely configures
(the `logging` dispatch, `RotatingFileHandler` rotation, `colorlog`
rendering) is modelled from the spec where noted.
-/

set_option autoImplicit false

namespace Loom

/-- Python `logging` severity constants: `logging.DEBUG = 10`. -/
def DEBUG : Nat := 10

/-- Python severity `logging.INFO = 20`. -/
def INFO : Nat := 20

/-- Python severity `logging.WARNING = 30`. -/
def WARNING : Nat := 30

/-- Python severity `logging.ERROR = 40`. -/
def ERROR : Nat := 40

/-- Python severity `logging.CRITICAL = 50`. -/
def CRITICAL : Nat := 50

/-- The kind of handler attached to a logger: a console `StreamHandler`, or a
`RotatingFileHandler` with its target path, `maxBytes` and `backupCount`
(as configured in `_add_file_handler`). -/
inductive HandlerKind where
  | console : HandlerKind
  | file (path : String) (maxBytes : Int) (backupCount : Int) : HandlerKind
deriving DecidableEq, Repr

/-- A handler attached to a `logging.Logger`.  `uid` stands for Python object
identity of the handler; `hlevel` is the level set via `setLevel`. -/
structure Handler where
  uid : Nat
  kind : HandlerKind
  hlevel : Nat
deriving DecidableEq, Repr

/-- Whether a handler is a console handler. -/
def Handler.isConsole (h : Handler) : Bool :=
  match h.kind with
  | .console => true
  | .file _ _ _ => false

/-- Whether a handler is a rotating file handler. -/
def Handler.isFile (h : Handler) : Bool :=
  match h.kind with
  | .console => false
  | .file _ _ _ => true

/-- The state of one `logging.Logger` object held by the `logging` module:
its level, its `propagate` flag and its attached handlers. -/
structure PyLogger where
  plevel : Nat
  propagate : Bool
  handlers : List Handler
deriving DecidableEq, Repr

/-- A logger freshly created by `logging.getLogger`: level `NOTSET = 0`,
`propagate = True`, no handlers. -/
def freshPyLogger : PyLogger := ⟨0, true, []⟩

/-- Lookup in a string-keyed association list (Python `dict` access). -/
def lookupStr {α : Type} : List (String × α) → String → Option α
  | [], _ => none
  | (k, v) :: rest, n => if k = n then some v else lookupStr rest n

/-- Replace the binding of a key, or append a fresh binding
(Python `dict` item assignment). -/
def updateStr {α : Type} : List (String × α) → String → α → List (String × α)
  | [], n, v => [(n, v)]
  | (k, x) :: rest, n, v =>
      if k = n then (k, v) :: rest else (k, x) :: updateStr rest n v

/-- The `logging` module's registry read through `logging.getLogger`: the
registered logger for a name, or a fresh one. -/
def pyGet (ls : List (String × PyLogger)) (n : String) : PyLogger :=
  (lookupStr ls n).getD freshPyLogger

/-- A `LoomLogger` instance: the attributes stored by `LoomLogger.__init__`.
`uid` stands for Python object identity of the instance. -/
structure Instance where
  uid : Nat
  name : String
  level : Nat
  log_dir : String
  log_file : String
  max_file_size_mb : Int
  backup_count : Int
  enable_console : Bool
  enable_file : Bool
  one_line_file_format : Bool
deriving DecidableEq, Repr

/-- An entry of the class-level `LoomLogger._instances` dict.  `malformed`
models an entry lacking the `_logger` attribute (as injected by
`test_clear_instances_with_incomplete_instance`). -/
inductive RegEntry where
  | good (inst : Instance) : RegEntry
  | malformed : RegEntry
deriving DecidableEq, Repr

/-- The keyword arguments of `LoomLogger.__init__` with their defaults. -/
structure Config where
  level : Nat := INFO
  log_dir : String := "logs"
  log_file : Option String := none
  max_file_size_mb : Int := 10
  backup_count : Int := 5
  enable_console : Bool := true
  enable_file : Bool := true
  one_line_file_format : Bool := true
deriving DecidableEq, Repr

/-- Process-wide state touched by the source: the `logging` module registry,
the `LoomLogger._instances` dict, a fresh-identity counter, the set of
paths created on disk, the set of directories the process cannot write to,
and the identities of handlers that have been closed. -/
structure World where
  pyLoggers : List (String × PyLogger)
  instances : List (String × RegEntry)
  nextUid : Nat
  createdPaths : List String
  unwritable : List String
  closedUids : List Nat
deriving DecidableEq, Repr

/-- Result of `_setup_handlers`: attached handlers, paths created on disk,
and the next free identity. -/
structure SetupResult where
  hs : List Handler
  paths : List String
  uid : Nat
deriving DecidableEq, Repr

/-- Embedding of `LoomLogger._setup_handlers` together with `_add_console_handler` and
`_add_file_handler`: attaches a console handler when `enable_console`,
then a file handler when `enable_file`.  The file branch creates the log
directory (`mkdir`, failing when the directory is unwritable) and opens
`log_dir/log_file` with `maxBytes = max_file_size_mb * 1024 * 1024` and
`backupCount = backup_count`; both handlers get `setLevel(self.level)`.
No validation of the numeric thresholds is performed. -/
def setupHandlers (inst : Instance) (uid0 : Nat) (unwritable : List String) :
    Except String SetupResult :=
  let consoleHs : List Handler :=
    if inst.enable_console then [⟨uid0, .console, inst.level⟩] else []
  let uid1 : Nat := if inst.enable_console then uid0 + 1 else uid0
  if inst.enable_file then
    if inst.log_dir ∈ unwritable then
      .error "PermissionError: cannot create log directory"
    else
      let path := inst.log_dir ++ "/" ++ inst.log_file
      let fh : Handler :=
        ⟨uid1, .file path (inst.max_file_size_mb * 1024 * 1024) inst.backup_count,
          inst.level⟩
      .ok ⟨consoleHs ++ [fh], [inst.log_dir, path], uid1 + 1⟩
  else
    .ok ⟨consoleHs, [], uid1⟩

/-- Embedding of `LoomLogger.__init__`: stores the configuration on the instance
(defaulting `log_file` to `name ++ ".log"`), fetches the underlying
`logging.getLogger(name)`, sets its level and `propagate = False`, and
runs `_setup_handlers` only when the underlying logger has no handlers
yet.  Errors raised while creating the file sink propagate to the
caller. -/
def mkInst (name : String) (cfg : Config) (uid : Nat) : Instance :=
  ⟨uid, name, cfg.level, cfg.log_dir,
    cfg.log_file.getD (name ++ ".log"),
    cfg.max_file_size_mb, cfg.backup_count,
    cfg.enable_console, cfg.enable_file, cfg.one_line_file_format⟩

/-- Embedding of `LoomLogger.__init__` continued: see `mkInst` for the stored attributes. -/
def loomInit (name : String) (cfg : Config) (w : World) :
    Except String (Instance × World) :=
  let inst : Instance := mkInst name cfg w.nextUid
  let py0 := pyGet w.pyLoggers name
  let py1 : PyLogger := ⟨cfg.level, false, py0.handlers⟩
  if py0.handlers = [] then
    match setupHandlers inst (w.nextUid + 1) w.unwritable with
    | .error e => .error e
    | .ok r =>
        .ok (inst,
          { w with
            pyLoggers := updateStr w.pyLoggers name ⟨cfg.level, false, r.hs⟩,
            nextUid := r.uid,
            createdPaths := w.createdPaths ++ r.paths })
  else
    .ok (inst,
      { w with
        pyLoggers := updateStr w.pyLoggers name py1,
        nextUid := w.nextUid + 1 })

/-- Embedding of `LoomLogger.get_logger`: under the class lock, returns the instance
registered for `name`, constructing and registering one first when the
name is absent.  The supplied keyword arguments are used only on first
construction. -/
def get_logger (name : String) (cfg : Config) (w : World) :
    Except String (RegEntry × World) :=
  match lookupStr w.instances name with
  | some e => .ok (e, w)
  | none =>
      match loomInit name cfg w with
      | .error e => .error e
      | .ok (inst, w') =>
          .ok (.good inst,
            { w' with instances := w'.instances ++ [(name, .good inst)] })

/-- The loop body of `LoomLogger.clear_instances`: for each registry entry
that has a `_logger` attribute, close every handler of its underlying
logger (recording their identities) and remove them; entries without the
attribute are skipped. -/
def closeAll : List (String × RegEntry) → List (String × PyLogger) → List Nat →
    List (String × PyLogger) × List Nat
  | [], pls, closed => (pls, closed)
  | (_, .malformed) :: rest, pls, closed => closeAll rest pls closed
  | (_, .good inst) :: rest, pls, closed =>
      let py := pyGet pls inst.name
      closeAll rest (updateStr pls inst.name ⟨py.plevel, py.propagate, []⟩)
        (closed ++ py.handlers.map (·.uid))

/-- Embedding of `LoomLogger.clear_instances`: closes and detaches the handlers of every
well-formed registered instance, then empties `_instances`. -/
def clear_instances (w : World) : World :=
  let r := closeAll w.instances w.pyLoggers w.closedUids
  { w with pyLoggers := r.1, closedUids := r.2, instances := [] }

/-- Modelled from the spec: the `logging` dispatch — an emit call "forwards
the formatted record to every attached sink whose threshold is satisfied";
"A Logger emits a record to a sink only if the record's severity ≥ the
logger's configured minimum severity AND ≥ the sink's own minimum
severity". -/
def sinksReceiving (py : PyLogger) (recLevel : Nat) : List Handler :=
  if py.plevel ≤ recLevel then
    py.handlers.filter (fun h => h.hlevel ≤ recLevel)
  else
    []

/-- Whitespace in the sense of Python's argument-less `str.split` (ASCII
range): space, tab, newline, carriage return, vertical tab, form feed. -/
def pyIsSpace (c : Char) : Bool :=
  c = ' ' || c = '\t' || c = '\n' || c = '\r' ||
    c = Char.ofNat 11 || c = Char.ofNat 12

/-- Helper for Python's `str.split()`: walks the characters, accumulating the
current word (reversed) and cutting at whitespace runs; empty fields are
dropped, exactly as argument-less `split` does. -/
def splitWsAux : List Char → List Char → List (List Char)
  | [], acc => if acc = [] then [] else [acc.reverse]
  | c :: cs, acc =>
      if pyIsSpace c then
        if acc = [] then splitWsAux cs []
        else acc.reverse :: splitWsAux cs []
      else splitWsAux cs (c :: acc)

/-- Python `" ".join(words)` on character lists. -/
def joinWords : List (List Char) → List Char
  | [] => []
  | [w] => w
  | w :: ws => w ++ ' ' :: joinWords ws

/-- The body of `OneLineFormatter.format` applied to an already formatted
message: `" ".join(original_message.split())`. -/
def normalizeLine (s : String) : String :=
  ⟨joinWords (splitWsAux s.data [])⟩

/-- State of a rotating file sink on disk: the lines of the active file
(oldest first) and the contents of the numbered backups, `backups[0]`
being `.1`, the most recent. -/
structure FileSinkState where
  active : List String
  backups : List (List String)
deriving DecidableEq, Repr

/-- Bytes a written line occupies: its characters plus the newline
terminator. -/
def lineBytes (s : String) : Nat := s.length + 1

/-- Total bytes of a file's lines. -/
def fileBytes (ls : List String) : Nat := (ls.map lineBytes).sum

/-- Modelled from the spec: one write of `RotatingFileHandler` (the source
only configures this handler).  "Before each write, checks whether
appending the new line would exceed `max_file_size_bytes`; if so, performs
rotation: the existing backup numbered `backup_count` (if present) is
deleted, every backup `k` is renamed to `k+1` ..., the active file is
renamed to backup `1`, and a new empty active file is opened", then the
line is written.  Returns the new state and whether a rotation
occurred. -/
def rfhEmit (maxBytes B : Nat) (line : String) (st : FileSinkState) :
    FileSinkState × Bool :=
  if fileBytes st.active + lineBytes line > maxBytes then
    (⟨[line], (st.active :: st.backups).take B⟩, true)
  else
    (⟨st.active ++ [line], st.backups⟩, false)

/-- A sequence of writes through the rotating file sink. -/
def rfhRun (maxBytes B : Nat) (lines : List String) (st : FileSinkState) :
    FileSinkState :=
  lines.foldl (fun s l => (rfhEmit maxBytes B l s).1) st

/-- ANSI escape for cyan, `colorlog`'s color for DEBUG. -/
def CYAN : String := "\x1b[36m"

/-- ANSI escape for green, `colorlog`'s color for INFO. -/
def GREEN : String := "\x1b[32m"

/-- ANSI escape for yellow, `colorlog`'s color for WARNING. -/
def YELLOW : String := "\x1b[33m"

/-- ANSI escape for red, `colorlog`'s color for ERROR. -/
def RED : String := "\x1b[31m"

/-- ANSI escape for bold. -/
def BOLD : String := "\x1b[01m"

/-- ANSI reset escape. -/
def RESET : String := "\x1b[0m"

/-- The `_LOG_COLORS` mapping of the source: level name to color escape
(`"red,bold"` concatenates the red and bold escapes). -/
def logColor (levelname : String) : String :=
  if levelname = "DEBUG" then CYAN
  else if levelname = "INFO" then GREEN
  else if levelname = "WARNING" then YELLOW
  else if levelname = "ERROR" then RED
  else if levelname = "CRITICAL" then RED ++ BOLD
  else ""

/-- The `_DATE_FORMAT` string of the source. -/
def DATE_FORMAT : String := "%d-%m-%Y | %H:%M:%S"

/-- The `_LOG_FORMAT` of the source instantiated on a record's fields:
`%(name)s | %(levelname)s | %(process)s | %(asctime)s | %(message)s`. -/
def baseLine (name levelname pid asctime msg : String) : String :=
  name ++ " | " ++ levelname ++ " | " ++ pid ++ " | " ++ asctime ++ " | " ++ msg

/-- Modelled from the spec: `colorlog.ColoredFormatter` rendering of the
source's `f"%(log_color)s{_LOG_FORMAT}"` with `reset=True` — the console
"prefixes a color code and trailing reset" around the base line. -/
def consoleFormat (levelname name pid asctime msg : String) : String :=
  logColor levelname ++ baseLine name levelname pid asctime msg ++ RESET

theorem lookupStr_eq_none_iff {α : Type} (ls : List (String × α)) (n : String) :
    lookupStr ls n = none ↔ n ∉ ls.map Prod.fst := by
  induction ls with
  | nil => simp [lookupStr]
  | cons p rest ih =>
      obtain ⟨k, v⟩ := p
      by_cases hk : k = n
      · subst hk
        simp [lookupStr]
      · rw [show lookupStr ((k, v) :: rest) n = lookupStr rest n from by
          simp [lookupStr, hk]]
        rw [ih, List.map_cons, List.mem_cons]
        constructor
        · intro h hc
          rcases hc with hc | hc
          · exact hk hc.symm
          · exact h hc
        · intro h hc
          exact h (Or.inr hc)

theorem lookupStr_append_right {α : Type} (l : List (String × α)) (n : String)
    (v : α) (h : lookupStr l n = none) : lookupStr (l ++ [(n, v)]) n = some v := by
  induction l with
  | nil => simp [lookupStr]
  | cons p rest ih =>
      obtain ⟨k, x⟩ := p
      simp only [lookupStr, List.cons_append] at h ⊢
      by_cases hk : k = n
      · simp [hk] at h
      · simp only [hk, if_false] at h ⊢
        exact ih h

theorem loomInit_ok_frame (name : String) (cfg : Config) (w : World)
    (inst : Instance) (w' : World) (h : loomInit name cfg w = .ok (inst, w')) :
    w'.instances = w.instances ∧ w'.unwritable = w.unwritable ∧
      w'.closedUids = w.closedUids := by
  simp only [loomInit] at h
  split at h
  · split at h
    · exact absurd h (by simp)
    · injection h with h1
      injection h1 with h1 h2
      subst h2
      exact ⟨rfl, rfl, rfl⟩
  · injection h with h1
    injection h1 with h1 h2
    subst h2
    exact ⟨rfl, rfl, rfl⟩

/-- Claim C1: for every name and any two configurations, a second call to
`get_logger` returns exactly the instance the first call returned, with
the state unchanged, and registry keys stay unique (at most one instance
per name). -/
theorem claim_C1 (name : String) (cfg cfg' : Config) (w w1 : World)
    (e : RegEntry) (hok : get_logger name cfg w = .ok (e, w1))
    (hnd : (w.instances.map Prod.fst).Nodup) :
    get_logger name cfg' w1 = .ok (e, w1) ∧
      (w1.instances.map Prod.fst).Nodup := by
  unfold get_logger at hok
  cases hl : lookupStr w.instances name with
  | some e0 =>
      rw [hl] at hok
      injection hok with h1
      injection h1 with h1 h2
      subst h1; subst h2
      constructor
      · unfold get_logger
        rw [hl]
      · exact hnd
  | none =>
      rw [hl] at hok
      cases hinit : loomInit name cfg w with
      | error msg => rw [hinit] at hok; exact absurd hok (by simp)
      | ok p =>
          obtain ⟨inst, w'⟩ := p
          rw [hinit] at hok
          injection hok with h1
          injection h1 with h1 h2
          subst h1; subst h2
          have hfr := loomInit_ok_frame name cfg w inst w' hinit
          have hinst : w'.instances = w.instances := hfr.1
          have hnone : lookupStr w'.instances name = none := by
            rw [hinst]; exact hl
          constructor
          · unfold get_logger
            simp only [lookupStr_append_right w'.instances name (.good inst) hnone]
          · simp only [List.map_append, List.map_cons, List.map_nil]
            rw [hinst]
            refine List.Nodup.append hnd (List.nodup_singleton name) ?_
            intro a ha hb
            rw [List.mem_singleton] at hb
            subst hb
            exact ((lookupStr_eq_none_iff w.instances a).mp hl) ha

/-- The instance used by several concrete witnesses: a logger already
registered under `"app"`. -/
def inst0 : Instance := ⟨0, "app", 20, "logs", "app.log", 10, 5, true, true, true⟩

/-- The underlying `logging` logger of `inst0`. -/
def pyApp : PyLogger := ⟨20, false, [⟨1, .console, 20⟩, ⟨2, .file "logs/app.log" 10485760 5, 20⟩]⟩

/-- A concrete world in which `"app"` is already registered. -/
def w0 : World := ⟨[("app", pyApp)], [("app", .good inst0)], 3, ["logs", "logs/app.log"], [], []⟩

theorem claim_C1_witness :
    get_logger "app" {} w0 = .ok (.good inst0, w0) ∧
      (w0.instances.map Prod.fst).Nodup :=
  claim_C1 "app" {} {} w0 w0 (.good inst0) (by rfl) (by decide)

/-- Claim C2: a repeat `get_logger` call for an already-registered name
returns the stored entry with the whole state unchanged (so no handler is
added to any underlying logger), and the result does not depend on the
configuration supplied to the repeat call. -/
theorem claim_C2 (name : String) (cfg cfg' : Config) (w : World) (e : RegEntry)
    (hreg : lookupStr w.instances name = some e) :
    get_logger name cfg w = .ok (e, w) ∧
      get_logger name cfg w = get_logger name cfg' w := by
  constructor
  · unfold get_logger
    rw [hreg]
  · unfold get_logger
    rw [hreg]

theorem claim_C2_witness :
    get_logger "app" {} w0 = .ok (.good inst0, w0) ∧
      get_logger "app" {} w0 =
        get_logger "app" { level := 10, enable_file := false } w0 :=
  claim_C2 "app" {} { level := 10, enable_file := false } w0 (.good inst0)
    (by rfl)

theorem splitWsAux_words_ne_nil (cs : List Char) :
    ∀ acc w, w ∈ splitWsAux cs acc → w ≠ [] := by
  induction cs with
  | nil =>
      intro acc w hw
      simp only [splitWsAux] at hw
      split at hw
      · simp at hw
      · rename_i hacc
        rw [List.mem_singleton] at hw
        subst hw
        simpa using hacc
  | cons c cs ih =>
      intro acc w hw
      simp only [splitWsAux] at hw
      split at hw
      · split at hw
        · exact ih [] w hw
        · rename_i hacc
          rcases List.mem_cons.mp hw with h | h
          · subst h; simpa using hacc
          · exact ih [] w h
      · exact ih (c :: acc) w hw

theorem splitWsAux_words_no_space (cs : List Char) :
    ∀ acc, (∀ c ∈ acc, pyIsSpace c = false) →
      ∀ w ∈ splitWsAux cs acc, ∀ c ∈ w, pyIsSpace c = false := by
  induction cs with
  | nil =>
      intro acc hacc w hw c hc
      simp only [splitWsAux] at hw
      split at hw
      · simp at hw
      · rw [List.mem_singleton] at hw
        subst hw
        exact hacc c (List.mem_reverse.mp hc)
  | cons a cs ih =>
      intro acc hacc w hw c hc
      simp only [splitWsAux] at hw
      split at hw
      · split at hw
        · exact ih [] (by simp) w hw c hc
        · rcases List.mem_cons.mp hw with h | h
          · subst h
            exact hacc c (List.mem_reverse.mp hc)
          · exact ih [] (by simp) w h c hc
      · rename_i hsp
        have ha : pyIsSpace a = false := by
          revert hsp; cases pyIsSpace a <;> simp
        refine ih (a :: acc) ?_ w hw c hc
        intro d hd
        rcases List.mem_cons.mp hd with h | h
        · subst h; exact ha
        · exact hacc d h

theorem joinWords_cons_cons (w v : List Char) (ws : List (List Char)) :
    joinWords (w :: v :: ws) = w ++ ' ' :: joinWords (v :: ws) := rfl

theorem joinWords_ne_nil (w : List Char) (ws : List (List Char)) (hw : w ≠ []) :
    joinWords (w :: ws) ≠ [] := by
  cases ws with
  | nil => simpa [joinWords] using hw
  | cons v ws' => rw [joinWords_cons_cons]; simp [hw]

theorem head?_joinWords (w : List Char) (ws : List (List Char)) (hw : w ≠ []) :
    (joinWords (w :: ws)).head? = w.head? := by
  cases ws with
  | nil => rfl
  | cons v ws' =>
      rw [joinWords_cons_cons]
      exact List.head?_append_of_ne_nil w hw

theorem mem_joinWords (ws : List (List Char)) (c : Char) (hc : c ∈ joinWords ws) :
    c = ' ' ∨ ∃ w ∈ ws, c ∈ w := by
  induction ws with
  | nil => simp [joinWords] at hc
  | cons w ws ih =>
      cases ws with
      | nil =>
          simp only [joinWords] at hc
          exact Or.inr ⟨w, by simp, hc⟩
      | cons v ws' =>
          rw [joinWords_cons_cons] at hc
          rcases List.mem_append.mp hc with h | h
          · exact Or.inr ⟨w, by simp, h⟩
          · rcases List.mem_cons.mp h with h | h
            · exact Or.inl h
            · rcases ih h with h | ⟨u, hu, hcu⟩
              · exact Or.inl h
              · exact Or.inr ⟨u, List.mem_cons_of_mem w hu, hcu⟩

theorem getLast?_joinWords : ∀ (ws : List (List Char)) (w : List Char),
    (∀ u ∈ ws, u ≠ []) → ws.getLast? = some w →
    (joinWords ws).getLast? = w.getLast? := by
  intro ws
  induction ws with
  | nil => intro w _ h; simp at h
  | cons u ws ih =>
      intro w hne hlast
      cases ws with
      | nil =>
          simp only [List.getLast?_singleton, Option.some.injEq] at hlast
          subst hlast
          rfl
      | cons v ws' =>
          have hv : v ≠ [] := hne v (by simp)
          have hjw : joinWords (v :: ws') ≠ [] := joinWords_ne_nil v ws' hv
          rw [joinWords_cons_cons]
          rw [List.getLast?_append_of_ne_nil u (by simp)]
          have hlast' : (v :: ws').getLast? = some w := by
            rw [List.getLast?_cons_cons] at hlast
            exact hlast
          have hrec := ih w (fun x hx => hne x (List.mem_cons_of_mem u hx)) hlast'
          cases hcase : joinWords (v :: ws') with
          | nil => exact absurd hcase hjw
          | cons b l =>
              rw [List.getLast?_cons_cons]
              rw [hcase] at hrec
              exact hrec

theorem pyIsSpace_space : pyIsSpace ' ' = true := by decide

theorem chain'_joinWords : ∀ ws : List (List Char),
    (∀ u ∈ ws, u ≠ []) → (∀ u ∈ ws, ∀ c ∈ u, pyIsSpace c = false) →
    List.Chain' (fun a b => ¬(a = ' ' ∧ b = ' ')) (joinWords ws) := by
  intro ws
  induction ws with
  | nil => intro _ _; simp [joinWords]
  | cons w ws ih =>
      intro hne hsp
      have hwsp : ∀ c ∈ w, pyIsSpace c = false := hsp w (by simp)
      have hchain_w : List.Chain' (fun a b => ¬(a = ' ' ∧ b = ' ')) w := by
        refine List.Pairwise.chain' ?_
        refine List.pairwise_of_forall_mem_list ?_
        intro a ha b hb hab
        have h1 := hwsp a ha
        rw [hab.1, pyIsSpace_space] at h1
        exact absurd h1 (by simp)
      cases ws with
      | nil => simpa only [joinWords] using hchain_w
      | cons v ws' =>
          have hv : v ≠ [] := hne v (by simp)
          rw [joinWords_cons_cons]
          refine List.chain'_append.mpr ⟨hchain_w, ?_, ?_⟩
          · refine List.chain'_cons'.mpr ⟨?_, ?_⟩
            · intro y hy
              have hy' : y ∈ joinWords (v :: ws') := by
                have := List.mem_of_mem_head? hy
                exact this
              intro hab
              rcases mem_joinWords (v :: ws') y hy' with h | ⟨u, hu, hcu⟩
              · rw [head?_joinWords v ws' hv] at hy
                have hyv : y ∈ v := List.mem_of_mem_head? hy
                have h1 := hsp v (List.mem_cons_of_mem w (by simp)) y hyv
                rw [hab.2, pyIsSpace_space] at h1
                exact absurd h1 (by simp)
              · have h1 := hsp u (List.mem_cons_of_mem w hu) y hcu
                rw [hab.2, pyIsSpace_space] at h1
                exact absurd h1 (by simp)
            · exact ih (fun x hx => hne x (List.mem_cons_of_mem w hx))
                (fun x hx => hsp x (List.mem_cons_of_mem w hx))
          · intro x hx y hy
            have hxw : x ∈ w := List.mem_of_mem_getLast? hx
            intro hab
            have h1 := hwsp x hxw
            rw [hab.1, pyIsSpace_space] at h1
            exact absurd h1 (by simp)

/-- Claim C5: the line normalizer of `OneLineFormatter.format`
(`" ".join(s.split())`) maps the documented examples correctly and, for
every input string, every whitespace character remaining in the output is
a single space: the output never starts or ends with whitespace and never
contains two adjacent spaces. -/
theorem claim_C5 :
    normalizeLine "Line 1\nLine 2\n  Line 3" = "Line 1 Line 2 Line 3" ∧
      normalizeLine "" = "" ∧
      (∀ s : String, ∀ c ∈ (normalizeLine s).data, pyIsSpace c = true → c = ' ') ∧
      (∀ s : String, ∀ c, (normalizeLine s).data.head? = some c →
        pyIsSpace c = false) ∧
      (∀ s : String, ∀ c, (normalizeLine s).data.getLast? = some c →
        pyIsSpace c = false) ∧
      (∀ s : String,
        List.Chain' (fun a b => ¬(a = ' ' ∧ b = ' ')) (normalizeLine s).data) := by
  refine ⟨by decide, rfl, ?_, ?_, ?_, ?_⟩
  · intro s c hc hsp
    rcases mem_joinWords (splitWsAux s.data []) c hc with h | ⟨u, hu, hcu⟩
    · exact h
    · have h1 := splitWsAux_words_no_space s.data [] (by simp) u hu c hcu
      rw [hsp] at h1
      exact absurd h1 (by simp)
  · intro s c hc
    cases hws : splitWsAux s.data [] with
    | nil =>
        have : (normalizeLine s).data = [] := by
          show joinWords (splitWsAux s.data []) = []
          rw [hws]; rfl
        rw [this] at hc
        simp at hc
    | cons w ws =>
        have hw : w ≠ [] := splitWsAux_words_ne_nil s.data [] w (by rw [hws]; simp)
        have hh : (normalizeLine s).data.head? = w.head? := by
          show (joinWords (splitWsAux s.data [])).head? = w.head?
          rw [hws]
          exact head?_joinWords w ws hw
        rw [hh] at hc
        have hcw : c ∈ w := List.mem_of_mem_head? hc
        exact splitWsAux_words_no_space s.data [] (by simp) w (by rw [hws]; simp) c hcw
  · intro s c hc
    cases hws : splitWsAux s.data [] with
    | nil =>
        have : (normalizeLine s).data = [] := by
          show joinWords (splitWsAux s.data []) = []
          rw [hws]; rfl
        rw [this] at hc
        simp at hc
    | cons w ws =>
        cases hlast : (w :: ws).getLast? with
        | none => simp at hlast
        | some u =>
            have hmemu : u ∈ w :: ws := List.mem_of_mem_getLast? hlast
            have hne : ∀ x ∈ w :: ws, x ≠ [] := by
              intro x hx
              exact splitWsAux_words_ne_nil s.data [] x (by rw [hws]; exact hx)
            have hgl : (normalizeLine s).data.getLast? = u.getLast? := by
              show (joinWords (splitWsAux s.data [])).getLast? = u.getLast?
              rw [hws]
              exact getLast?_joinWords (w :: ws) u hne hlast
            rw [hgl] at hc
            have hcu : c ∈ u := List.mem_of_mem_getLast? hc
            exact splitWsAux_words_no_space s.data [] (by simp) u
              (by rw [hws]; exact hmemu) c hcu
  · intro s
    show List.Chain' _ (joinWords (splitWsAux s.data []))
    exact chain'_joinWords (splitWsAux s.data [])
      (fun u hu => splitWsAux_words_ne_nil s.data [] u hu)
      (fun u hu => splitWsAux_words_no_space s.data [] (by simp) u hu)

theorem lookupStr_update_self {α : Type} (ls : List (String × α)) (n : String)
    (v : α) : lookupStr (updateStr ls n v) n = some v := by
  induction ls with
  | nil => simp [updateStr, lookupStr]
  | cons p rest ih =>
      obtain ⟨k, x⟩ := p
      by_cases hk : k = n
      · subst hk
        simp [updateStr, lookupStr]
      · simp only [updateStr, hk, if_false, lookupStr]
        exact ih

theorem pyGet_update_self (pls : List (String × PyLogger)) (n : String)
    (v : PyLogger) : pyGet (updateStr pls n v) n = v := by
  unfold pyGet
  rw [lookupStr_update_self]
  rfl

theorem lookupStr_update_ne {α : Type} (ls : List (String × α)) (n m : String)
    (v : α) (h : m ≠ n) : lookupStr (updateStr ls n v) m = lookupStr ls m := by
  induction ls with
  | nil =>
      simp only [updateStr, lookupStr]
      rw [if_neg (fun hc : n = m => h hc.symm)]
  | cons p rest ih =>
      obtain ⟨k, x⟩ := p
      by_cases hk : k = n
      · subst hk
        simp only [updateStr, if_pos rfl, lookupStr]
        rw [if_neg (fun hc : k = m => h hc.symm), if_neg (fun hc : k = m => h hc.symm)]
      · simp only [updateStr, hk, if_false, lookupStr]
        by_cases hkm : k = m
        · rw [if_pos hkm, if_pos hkm]
        · rw [if_neg hkm, if_neg hkm]
          exact ih

theorem pyGet_update_ne (pls : List (String × PyLogger)) (n m : String)
    (v : PyLogger) (h : m ≠ n) : pyGet (updateStr pls n v) m = pyGet pls m := by
  unfold pyGet
  rw [lookupStr_update_ne pls n m v h]

theorem setupHandlers_levels (inst : Instance) (uid0 : Nat)
    (unw : List String) (r : SetupResult)
    (h : setupHandlers inst uid0 unw = .ok r) :
    ∀ x ∈ r.hs, x.hlevel = inst.level := by
  simp only [setupHandlers] at h
  split at h
  · split at h
    · exact absurd h (by simp)
    · injection h with h1
      subst h1
      intro x hx
      simp only [List.mem_append, List.mem_singleton] at hx
      rcases hx with hx | hx
      · split at hx
        · rw [List.mem_singleton] at hx
          subst hx
          rfl
        · simp at hx
      · subst hx
        rfl
  · injection h with h1
    subst h1
    intro x hx
    simp only at hx
    split at hx
    · rw [List.mem_singleton] at hx
      subst hx
      rfl
    · simp at hx

theorem setupHandlers_isOk (inst : Instance) (uid0 : Nat) (unw : List String)
    (hwr : inst.log_dir ∉ unw) :
    (setupHandlers inst uid0 unw).isOk = true := by
  simp only [setupHandlers]
  by_cases hf : inst.enable_file = true
  · rw [if_pos hf, if_neg hwr]
    rfl
  · rw [if_neg hf]
    rfl

theorem setupHandlers_isErr (inst : Instance) (uid0 : Nat) (unw : List String)
    (hf : inst.enable_file = true) (hun : inst.log_dir ∈ unw) :
    (setupHandlers inst uid0 unw).isOk = false := by
  simp only [setupHandlers]
  rw [if_pos hf, if_pos hun]
  rfl

theorem loomInit_fresh_eq (name : String) (cfg : Config) (w : World)
    (hfresh : (pyGet w.pyLoggers name).handlers = []) :
    loomInit name cfg w =
      match setupHandlers (mkInst name cfg w.nextUid) (w.nextUid + 1)
          w.unwritable with
      | .error e => .error e
      | .ok r =>
          .ok (mkInst name cfg w.nextUid,
            { w with
              pyLoggers := updateStr w.pyLoggers name ⟨cfg.level, false, r.hs⟩,
              nextUid := r.uid,
              createdPaths := w.createdPaths ++ r.paths }) := by
  simp only [loomInit]
  rw [if_pos hfresh]

theorem loomInit_stale_eq (name : String) (cfg : Config) (w : World)
    (hold : (pyGet w.pyLoggers name).handlers ≠ []) :
    loomInit name cfg w =
      .ok (mkInst name cfg w.nextUid,
        { w with
          pyLoggers := updateStr w.pyLoggers name
            ⟨cfg.level, false, (pyGet w.pyLoggers name).handlers⟩,
          nextUid := w.nextUid + 1 }) := by
  simp only [loomInit]
  rw [if_neg hold]

/-- Claim C3: after constructing a logger for a fresh name, a record reaches
a sink only if its severity is at least the configured level and at least
the sink's own level; with `level = WARNING`, an `info` record reaches no
sink and a `warning` record reaches every attached sink. -/
theorem claim_C3 (name : String) (cfg : Config) (w : World) (inst : Instance)
    (w' : World) (hfresh : (pyGet w.pyLoggers name).handlers = [])
    (hok : loomInit name cfg w = .ok (inst, w')) :
    (∀ L x, x ∈ sinksReceiving (pyGet w'.pyLoggers name) L →
        cfg.level ≤ L ∧ x.hlevel ≤ L) ∧
      (cfg.level = WARNING →
        sinksReceiving (pyGet w'.pyLoggers name) INFO = [] ∧
          sinksReceiving (pyGet w'.pyLoggers name) WARNING =
            (pyGet w'.pyLoggers name).handlers) := by
  rw [loomInit_fresh_eq name cfg w hfresh] at hok
  cases hs : setupHandlers (mkInst name cfg w.nextUid) (w.nextUid + 1)
      w.unwritable with
  | error e => rw [hs] at hok; exact absurd hok (by simp)
  | ok r =>
      rw [hs] at hok
      injection hok with h1
      injection h1 with h1 h2
      subst h1
      subst h2
      have hpy : pyGet
          (updateStr w.pyLoggers name ⟨cfg.level, false, r.hs⟩) name =
          ⟨cfg.level, false, r.hs⟩ := pyGet_update_self w.pyLoggers name _
      have hlv : ∀ x ∈ r.hs, x.hlevel = cfg.level := by
        intro x hx
        exact setupHandlers_levels (mkInst name cfg w.nextUid) (w.nextUid + 1)
          w.unwritable r hs x hx
      constructor
      · intro L x hx
        simp only [hpy, sinksReceiving] at hx
        split at hx
        · rename_i hle
          have := List.mem_filter.mp hx
          exact ⟨hle, by simpa using this.2⟩
        · simp at hx
      · intro hW
        constructor
        · simp only [hpy, sinksReceiving]
          rw [if_neg (by rw [hW]; decide)]
        · simp only [hpy, sinksReceiving]
          rw [if_pos (by rw [hW])]
          refine List.filter_eq_self.mpr ?_
          intro x hx
          have := hlv x hx
          simp only [this, hW]
          decide

/-- A fresh world: nothing registered, everything writable. -/
def wEmpty : World := ⟨[], [], 0, [], [], []⟩

/-- Configuration with minimum level WARNING. -/
def cfgW : Config := { level := WARNING }

/-- The world produced by constructing `"x"` with `cfgW` in `wEmpty`. -/
def wC3 : World :=
  ⟨[("x", ⟨30, false,
      [⟨1, .console, 30⟩, ⟨2, .file "logs/x.log" 10485760 5, 30⟩]⟩)],
    [], 3, ["logs", "logs/x.log"], [], []⟩

theorem claim_C3_witness :
    sinksReceiving (pyGet wC3.pyLoggers "x") INFO = [] ∧
      sinksReceiving (pyGet wC3.pyLoggers "x") WARNING =
        (pyGet wC3.pyLoggers "x").handlers :=
  (claim_C3 "x" cfgW wEmpty (mkInst "x" cfgW 0) wC3 (by rfl) (by rfl)).2 rfl

theorem setupHandlers_console_only (inst : Instance) (uid0 : Nat)
    (unw : List String) (hc : inst.enable_console = true)
    (hf : inst.enable_file = false) :
    setupHandlers inst uid0 unw =
      .ok ⟨[⟨uid0, .console, inst.level⟩], [], uid0 + 1⟩ := by
  simp [setupHandlers, hc, hf]

theorem setupHandlers_none (inst : Instance) (uid0 : Nat) (unw : List String)
    (hc : inst.enable_console = false) (hf : inst.enable_file = false) :
    setupHandlers inst uid0 unw = .ok ⟨[], [], uid0⟩ := by
  simp [setupHandlers, hc, hf]

theorem setupHandlers_file_only_ok (inst : Instance) (uid0 : Nat)
    (unw : List String) (r : SetupResult) (hc : inst.enable_console = false)
    (hf : inst.enable_file = true) (h : setupHandlers inst uid0 unw = .ok r) :
    r = ⟨[⟨uid0, .file (inst.log_dir ++ "/" ++ inst.log_file)
            (inst.max_file_size_mb * 1024 * 1024) inst.backup_count,
          inst.level⟩],
        [inst.log_dir, inst.log_dir ++ "/" ++ inst.log_file], uid0 + 1⟩ := by
  simp only [setupHandlers, hc, hf, if_true, if_false] at h
  split at h
  · exact absurd h (by simp)
  · injection h with h1
    rw [← h1]
    simp

/-- Claim C6: constructing a logger for a fresh name with console enabled
and file disabled attaches only console sinks and creates no files; the
reverse attaches only file sinks; with both disabled no sink is attached,
emitting at every severity reaches no sink, and no file is created. -/
theorem claim_C6 (name : String) (cfg : Config) (w : World) (inst : Instance)
    (w' : World) (hfresh : (pyGet w.pyLoggers name).handlers = [])
    (hok : loomInit name cfg w = .ok (inst, w')) :
    (cfg.enable_console = true → cfg.enable_file = false →
      (∀ x ∈ (pyGet w'.pyLoggers name).handlers, x.isConsole = true) ∧
        w'.createdPaths = w.createdPaths ∧
        (∀ L, cfg.level ≤ L →
          sinksReceiving (pyGet w'.pyLoggers name) L ≠ [])) ∧
    (cfg.enable_console = false → cfg.enable_file = true →
      (∀ x ∈ (pyGet w'.pyLoggers name).handlers, x.isFile = true) ∧
        (∀ L, cfg.level ≤ L →
          sinksReceiving (pyGet w'.pyLoggers name) L ≠ [])) ∧
    (cfg.enable_console = false → cfg.enable_file = false →
      (pyGet w'.pyLoggers name).handlers = [] ∧
        (∀ L, sinksReceiving (pyGet w'.pyLoggers name) L = []) ∧
        w'.createdPaths = w.createdPaths) := by
  rw [loomInit_fresh_eq name cfg w hfresh] at hok
  refine ⟨?_, ?_, ?_⟩
  · intro hc hf
    rw [setupHandlers_console_only (mkInst name cfg w.nextUid) (w.nextUid + 1)
      w.unwritable hc hf] at hok
    injection hok with h1
    injection h1 with h1 h2
    subst h2
    have hpy := pyGet_update_self w.pyLoggers name
      ⟨cfg.level, false, [⟨w.nextUid + 1, .console, (mkInst name cfg w.nextUid).level⟩]⟩
    refine ⟨?_, by simp, ?_⟩
    · intro x hx
      rw [hpy] at hx
      rw [List.mem_singleton] at hx
      subst hx
      rfl
    · intro L hL
      rw [hpy]
      simp only [sinksReceiving]
      rw [if_pos hL]
      simp only [List.filter, decide_eq_true (show (mkInst name cfg w.nextUid).level ≤ L from hL)]
      simp
  · intro hc hf
    cases hs : setupHandlers (mkInst name cfg w.nextUid) (w.nextUid + 1)
        w.unwritable with
    | error e => rw [hs] at hok; exact absurd hok (by simp)
    | ok r =>
        rw [hs] at hok
        have hr := setupHandlers_file_only_ok (mkInst name cfg w.nextUid)
          (w.nextUid + 1) w.unwritable r hc hf hs
        subst hr
        injection hok with h1
        injection h1 with h1 h2
        subst h2
        have hpy := pyGet_update_self w.pyLoggers name
          ⟨cfg.level, false,
            [⟨w.nextUid + 1,
              .file ((mkInst name cfg w.nextUid).log_dir ++ "/" ++
                  (mkInst name cfg w.nextUid).log_file)
                ((mkInst name cfg w.nextUid).max_file_size_mb * 1024 * 1024)
                (mkInst name cfg w.nextUid).backup_count,
              (mkInst name cfg w.nextUid).level⟩]⟩
        refine ⟨?_, ?_⟩
        · intro x hx
          rw [hpy] at hx
          rw [List.mem_singleton] at hx
          subst hx
          rfl
        · intro L hL
          rw [hpy]
          simp only [sinksReceiving]
          rw [if_pos hL]
          simp only [List.filter, decide_eq_true (show (mkInst name cfg w.nextUid).level ≤ L from hL)]
          simp
  · intro hc hf
    rw [setupHandlers_none (mkInst name cfg w.nextUid) (w.nextUid + 1)
      w.unwritable hc hf] at hok
    injection hok with h1
    injection h1 with h1 h2
    subst h2
    have hpy := pyGet_update_self w.pyLoggers name ⟨cfg.level, false, []⟩
    refine ⟨by rw [hpy], ?_, by simp⟩
    intro L
    rw [hpy]
    simp only [sinksReceiving]
    split
    · rfl
    · rfl

/-- Configuration with both sinks disabled. -/
def cfgNone : Config := { enable_console := false, enable_file := false }

/-- The world produced by constructing `"x"` with `cfgNone` in `wEmpty`. -/
def wC6 : World := ⟨[("x", ⟨20, false, []⟩)], [], 1, [], [], []⟩

theorem claim_C6_witness :
    (pyGet wC6.pyLoggers "x").handlers = [] ∧
      sinksReceiving (pyGet wC6.pyLoggers "x") CRITICAL = [] ∧
      wC6.createdPaths = wEmpty.createdPaths := by
  have h := (claim_C6 "x" cfgNone wEmpty (mkInst "x" cfgNone 0) wC6
    (by rfl) (by rfl)).2.2 rfl rfl
  exact ⟨h.1, h.2.1 CRITICAL, h.2.2⟩

/-- Claim C7 (amended): on a fresh name with the file sink enabled, an
unwritable log directory is surfaced to the requesting caller as an error
at sink-construction time; the numeric thresholds are not validated —
whenever the directory is writable, construction succeeds for every value
of `max_file_size_mb` and `backup_count`, including values ≤ 0. -/
theorem claim_C7_amended (name : String) (cfg : Config) (w : World) :
    (cfg.enable_file = true → (pyGet w.pyLoggers name).handlers = [] →
      cfg.log_dir ∈ w.unwritable → (loomInit name cfg w).isOk = false) ∧
    (cfg.log_dir ∉ w.unwritable → (loomInit name cfg w).isOk = true) := by
  constructor
  · intro hf hfresh hun
    rw [loomInit_fresh_eq name cfg w hfresh]
    have herr := setupHandlers_isErr (mkInst name cfg w.nextUid)
      (w.nextUid + 1) w.unwritable hf hun
    cases hs : setupHandlers (mkInst name cfg w.nextUid) (w.nextUid + 1)
        w.unwritable with
    | error e => rfl
    | ok r =>
        rw [hs] at herr
        simp [Except.isOk, Except.toBool] at herr
  · intro hwr
    by_cases hfresh : (pyGet w.pyLoggers name).handlers = []
    · rw [loomInit_fresh_eq name cfg w hfresh]
      have hok := setupHandlers_isOk (mkInst name cfg w.nextUid)
        (w.nextUid + 1) w.unwritable hwr
      cases hs : setupHandlers (mkInst name cfg w.nextUid) (w.nextUid + 1)
          w.unwritable with
      | error e =>
          rw [hs] at hok
          simp [Except.isOk, Except.toBool] at hok
      | ok r => rfl
    · rw [loomInit_stale_eq name cfg w hfresh]
      rfl

/-- Configuration carrying the numeric thresholds the claim calls invalid. -/
def cfgBad : Config := { max_file_size_mb := 0, backup_count := 0 }

/-- Claim C7 counterexample: a creation request whose numeric thresholds are
both ≤ 0 succeeds with no reported error — the failure the claim promises
is not surfaced. -/
theorem claim_C7_counterexample :
    cfgBad.max_file_size_mb ≤ 0 ∧ cfgBad.backup_count ≤ 0 ∧
      (loomInit "x" cfgBad wEmpty).isOk = true :=
  ⟨by decide, by decide, by rfl⟩

/-- A world whose default log directory is unwritable. -/
def wUnw : World := ⟨[], [], 0, [], ["logs"], []⟩

theorem claim_C7_witness :
    (loomInit "x" {} wUnw).isOk = false ∧
      (loomInit "x" {} wEmpty).isOk = true :=
  ⟨(claim_C7_amended "x" {} wUnw).1 rfl rfl (by decide),
    (claim_C7_amended "x" {} wEmpty).2 (by decide)⟩

/-- Claim C10: when the underlying named logger already has handlers at
construction time, construction succeeds, attaches no sinks at all (the
sink configuration options are ignored and no file is created), and
leaves the pre-existing handlers as the only ones; only the level is
updated. -/
theorem claim_C10 (name : String) (cfg : Config) (w : World)
    (hold : (pyGet w.pyLoggers name).handlers ≠ []) :
    (loomInit name cfg w).isOk = true ∧
      ∀ inst w', loomInit name cfg w = .ok (inst, w') →
        (pyGet w'.pyLoggers name).handlers =
            (pyGet w.pyLoggers name).handlers ∧
          w'.createdPaths = w.createdPaths ∧
          (pyGet w'.pyLoggers name).plevel = cfg.level := by
  rw [loomInit_stale_eq name cfg w hold]
  constructor
  · rfl
  · intro inst w' h
    injection h with h1
    injection h1 with h1 h2
    subst h2
    refine ⟨?_, rfl, ?_⟩
    · rw [pyGet_update_self]
    · rw [pyGet_update_self]

/-- A world where the logger `"x"` already carries an externally attached
handler before any `LoomLogger` is constructed. -/
def wStale : World := ⟨[("x", ⟨0, true, [⟨7, .console, 0⟩]⟩)], [], 0, [], [], []⟩

/-- The world produced by constructing `"x"` with defaults in `wStale`. -/
def wStale' : World :=
  ⟨[("x", ⟨20, false, [⟨7, .console, 0⟩]⟩)], [], 1, [], [], []⟩

theorem claim_C10_witness :
    (loomInit "x" {} wStale).isOk = true ∧
      (pyGet wStale'.pyLoggers "x").handlers =
          (pyGet wStale.pyLoggers "x").handlers ∧
        wStale'.createdPaths = wStale.createdPaths ∧
        (pyGet wStale'.pyLoggers "x").plevel = 20 := by
  have h := claim_C10 "x" {} wStale (by decide)
  exact ⟨h.1, h.2 (mkInst "x" {} 0) wStale' (by rfl)⟩

theorem rfhEmit_backups_le (maxB B : Nat) (line : String) (st : FileSinkState)
    (hB : st.backups.length ≤ B) :
    (rfhEmit maxB B line st).1.backups.length ≤ B := by
  unfold rfhEmit
  split
  · simp only [List.length_take]
    exact min_le_left B _
  · exact hB

theorem rfhRun_backups_le (maxB B : Nat) (lines : List String) :
    ∀ st : FileSinkState, st.backups.length ≤ B →
      (rfhRun maxB B lines st).backups.length ≤ B := by
  induction lines with
  | nil => intro st h; exact h
  | cons l ls ih =>
      intro st h
      exact ih _ (rfhEmit_backups_le maxB B l st h)

/-- Claim C4: for a file sink with `backupCount = B`, a write keeps at most
`B` backups (also over any sequence of writes from the empty state),
rotates exactly when appending the line would exceed the threshold, moves
the previous active file to backup 1 and starts the new active file with
the written line, drops the oldest backup when `B` backups already exist,
and the just-written line is always the last line of the active file. -/
theorem claim_C4 (maxB B : Nat) (st : FileSinkState) (line : String)
    (hB : st.backups.length ≤ B) :
    ((rfhEmit maxB B line st).1.backups.length ≤ B) ∧
      ((rfhEmit maxB B line st).2 = true ↔
        fileBytes st.active + lineBytes line > maxB) ∧
      ((rfhEmit maxB B line st).2 = true → 0 < B →
        (rfhEmit maxB B line st).1.backups.head? = some st.active ∧
          (rfhEmit maxB B line st).1.active = [line]) ∧
      ((rfhEmit maxB B line st).2 = true → st.backups.length = B → 0 < B →
        (rfhEmit maxB B line st).1.backups =
          st.active :: st.backups.dropLast) ∧
      ((rfhEmit maxB B line st).1.active.getLast? = some line) ∧
      (∀ lines : List String,
        (rfhRun maxB B lines ⟨[], []⟩).backups.length ≤ B) := by
  refine ⟨rfhEmit_backups_le maxB B line st hB, ?_, ?_, ?_, ?_, ?_⟩
  · unfold rfhEmit
    split
    · rename_i h
      simpa using h
    · rename_i h
      simp only [Bool.false_eq_true, false_iff]
      exact h
  · intro hrot hBpos
    unfold rfhEmit at hrot ⊢
    split at hrot
    · rename_i hgt
      rw [if_pos hgt]
      constructor
      · cases B with
        | zero => exact absurd hBpos (by simp)
        | succ b => simp [List.take_succ_cons]
      · rfl
    · exact absurd hrot (by simp)
  · intro hrot hlen hBpos
    unfold rfhEmit at hrot ⊢
    split at hrot
    · rename_i hgt
      rw [if_pos hgt]
      cases B with
      | zero => exact absurd hBpos (by simp)
      | succ b =>
          show List.take (b + 1) (st.active :: st.backups) =
            st.active :: st.backups.dropLast
          rw [List.take_succ_cons]
          congr 1
          rw [List.dropLast_eq_take, hlen]
          simp
    · exact absurd hrot (by simp)
  · unfold rfhEmit
    split
    · rfl
    · simp
  · intro lines
    exact rfhRun_backups_le maxB B lines ⟨[], []⟩ (by simp)

/-- A rotation scenario: active file near the threshold with the maximum
number of backups already present. -/
def stFull : FileSinkState := ⟨["abcd"], [["x"], ["y"], ["z"]]⟩

theorem claim_C4_witness :
    ((rfhEmit 10 3 "abcdefgh" stFull).1.backups.length ≤ 3) ∧
      ((rfhEmit 10 3 "abcdefgh" stFull).2 = true) ∧
      ((rfhEmit 10 3 "abcdefgh" stFull).1.backups =
        [["abcd"], ["x"], ["y"]]) ∧
      ((rfhEmit 10 3 "abcdefgh" stFull).1.active.getLast? = some "abcdefgh") := by
  have h := claim_C4 10 3 stFull "abcdefgh" (by decide)
  refine ⟨h.1, ?_, ?_, h.2.2.2.2.1⟩
  · exact h.2.1.mpr (by decide)
  · have h4 := h.2.2.2.1 (h.2.1.mpr (by decide)) (by decide) (by decide)
    rw [h4]
    decide

/-- Claim C9: the console formatter renders each record as the level color
followed by `name | LEVEL | pid | asctime | message` and a trailing reset;
the color mapping is DEBUG=cyan, INFO=green, WARNING=yellow, ERROR=red,
CRITICAL=bold red, the reset escape is always emitted after the colored
marker, and the timestamp format is `dd-mm-yyyy | HH:MM:SS`. -/
theorem claim_C9 (lvl name pid ts msg : String) :
    consoleFormat lvl name pid ts msg =
        logColor lvl ++
          (name ++ " | " ++ lvl ++ " | " ++ pid ++ " | " ++ ts ++ " | " ++ msg)
          ++ RESET ∧
      logColor "DEBUG" = CYAN ∧ logColor "INFO" = GREEN ∧
      logColor "WARNING" = YELLOW ∧ logColor "ERROR" = RED ∧
      logColor "CRITICAL" = RED ++ BOLD ∧
      DATE_FORMAT = "%d-%m-%Y | %H:%M:%S" ∧
      consoleFormat "DEBUG" "app" "42" "01-01-2024 | 12:00:00" "hi" =
        "\x1b[36mapp | DEBUG | 42 | 01-01-2024 | 12:00:00 | hi\x1b[0m" ∧
      consoleFormat "INFO" "app" "42" "01-01-2024 | 12:00:00" "hi" =
        "\x1b[32mapp | INFO | 42 | 01-01-2024 | 12:00:00 | hi\x1b[0m" ∧
      consoleFormat "WARNING" "app" "42" "01-01-2024 | 12:00:00" "hi" =
        "\x1b[33mapp | WARNING | 42 | 01-01-2024 | 12:00:00 | hi\x1b[0m" ∧
      consoleFormat "ERROR" "app" "42" "01-01-2024 | 12:00:00" "hi" =
        "\x1b[31mapp | ERROR | 42 | 01-01-2024 | 12:00:00 | hi\x1b[0m" ∧
      consoleFormat "CRITICAL" "app" "42" "01-01-2024 | 12:00:00" "hi" =
        "\x1b[31m\x1b[01mapp | CRITICAL | 42 | 01-01-2024 | 12:00:00 | hi\x1b[0m" := by
  refine ⟨rfl, rfl, rfl, rfl, rfl, rfl, rfl, ?_, ?_, ?_, ?_, ?_⟩ <;> decide

theorem closeAll_closed_mono : ∀ (es : List (String × RegEntry))
    (pls : List (String × PyLogger)) (closed : List Nat) (u : Nat),
    u ∈ closed → u ∈ (closeAll es pls closed).2 := by
  intro es
  induction es with
  | nil => intro pls closed u hu; exact hu
  | cons e rest ih =>
      intro pls closed u hu
      obtain ⟨k, entry⟩ := e
      cases entry with
      | malformed =>
          simp only [closeAll]
          exact ih pls closed u hu
      | good inst =>
          simp only [closeAll]
          exact ih _ _ u (List.mem_append_left _ hu)

theorem closeAll_handlers_sub : ∀ (es : List (String × RegEntry))
    (pls : List (String × PyLogger)) (closed : List Nat) (n : String)
    (x : Handler), x ∈ (pyGet (closeAll es pls closed).1 n).handlers →
    x ∈ (pyGet pls n).handlers := by
  intro es
  induction es with
  | nil => intro pls closed n x hx; exact hx
  | cons e rest ih =>
      intro pls closed n x hx
      obtain ⟨k, entry⟩ := e
      cases entry with
      | malformed =>
          simp only [closeAll] at hx
          exact ih pls closed n x hx
      | good inst =>
          simp only [closeAll] at hx
          have hx' := ih _ _ n x hx
          by_cases hn : n = inst.name
          · subst hn
            rw [pyGet_update_self] at hx'
            simp at hx'
          · rw [pyGet_update_ne _ _ _ _ hn] at hx'
            exact hx'

theorem closeAll_handlers_cleared : ∀ (es : List (String × RegEntry))
    (pls : List (String × PyLogger)) (closed : List Nat) (k : String)
    (inst : Instance), (k, RegEntry.good inst) ∈ es →
    (pyGet (closeAll es pls closed).1 inst.name).handlers = [] := by
  intro es
  induction es with
  | nil => intro pls closed k inst h; simp at h
  | cons e rest ih =>
      intro pls closed k inst h
      obtain ⟨k', entry⟩ := e
      cases entry with
      | malformed =>
          have hmem : (k, RegEntry.good inst) ∈ rest := by
            rcases List.mem_cons.mp h with heq | hmem
            · exact absurd heq (by simp)
            · exact hmem
          simp only [closeAll]
          exact ih pls closed k inst hmem
      | good inst' =>
          simp only [closeAll]
          rcases List.mem_cons.mp h with heq | hmem
          · have h2 : inst = inst' := by
              simpa using congrArg Prod.snd heq
            subst h2
            refine List.eq_nil_iff_forall_not_mem.mpr ?_
            intro x hx
            have hx' := closeAll_handlers_sub rest _ _ inst.name x hx
            rw [pyGet_update_self] at hx'
            simp at hx'
          · exact ih _ _ k inst hmem

theorem closeAll_closes : ∀ (es : List (String × RegEntry))
    (pls : List (String × PyLogger)) (closed : List Nat) (k : String)
    (inst : Instance), (k, RegEntry.good inst) ∈ es →
    ∀ x ∈ (pyGet pls inst.name).handlers,
      x.uid ∈ (closeAll es pls closed).2 := by
  intro es
  induction es with
  | nil => intro pls closed k inst h; simp at h
  | cons e rest ih =>
      intro pls closed k inst h x hx
      obtain ⟨k', entry⟩ := e
      cases entry with
      | malformed =>
          have hmem : (k, RegEntry.good inst) ∈ rest := by
            rcases List.mem_cons.mp h with heq | hmem
            · exact absurd heq (by simp)
            · exact hmem
          simp only [closeAll]
          exact ih pls closed k inst hmem x hx
      | good inst' =>
          simp only [closeAll]
          by_cases hn : inst.name = inst'.name
          · have hxin : x ∈ (pyGet pls inst'.name).handlers := by
              rw [← hn]; exact hx
            refine closeAll_closed_mono rest _ _ x.uid ?_
            refine List.mem_append_right _ ?_
            exact List.mem_map.mpr ⟨x, hxin, rfl⟩
          · rcases List.mem_cons.mp h with heq | hmem
            · have h2 : inst = inst' := by
                simpa using congrArg Prod.snd heq
              exact absurd (by rw [h2]) hn
            · refine ih _ _ k inst hmem x ?_
              rw [pyGet_update_ne _ _ _ _ hn]
              exact hx

/-- Claim C8: `clear_instances` empties the registry; for every well-formed
registered instance its underlying logger ends up with no handlers and
the identity of each of its previously attached handlers is recorded as
closed — also in the presence of malformed registry entries, whose
cleanup is skipped while the rest is still cleaned (the operation is a
total function, so it never raises). -/
theorem claim_C8 (w : World) :
    (clear_instances w).instances = [] ∧
      ∀ k inst, (k, RegEntry.good inst) ∈ w.instances →
        (pyGet (clear_instances w).pyLoggers inst.name).handlers = [] ∧
          ∀ x ∈ (pyGet w.pyLoggers inst.name).handlers,
            x.uid ∈ (clear_instances w).closedUids := by
  constructor
  · rfl
  · intro k inst h
    constructor
    · exact closeAll_handlers_cleared w.instances w.pyLoggers w.closedUids
        k inst h
    · intro x hx
      exact closeAll_closes w.instances w.pyLoggers w.closedUids k inst h x hx

/-- A world whose registry holds one well-formed and one malformed entry. -/
def wMal : World :=
  ⟨[("app", pyApp)], [("app", .good inst0), ("fake", .malformed)], 3, [], [], []⟩

theorem claim_C8_witness :
    (clear_instances wMal).instances = [] ∧
      (pyGet (clear_instances wMal).pyLoggers "app").handlers = [] ∧
      (1 : Nat) ∈ (clear_instances wMal).closedUids ∧
      (2 : Nat) ∈ (clear_instances wMal).closedUids := by
  have h := claim_C8 wMal
  have h2 := h.2 "app" inst0 (by decide)
  refine ⟨h.1, h2.1, ?_, ?_⟩
  · exact h2.2 ⟨1, .console, 20⟩ (by decide)
  · exact h2.2 ⟨2, .file "logs/app.log" 10485760 5, 20⟩ (by decide)

end Loom
